import Mathlib

/-!
# gin-dex: identity, extraction, enumeration and configuration helpers

A shallow embedding of `cmd/gindex/util.go` and of `loadconfig` from
`cmd/gindex/main.go`, followed by the properties established about them.

Conventions of the embedding:

* a Go `string` / `[]byte` is a list of bytes (`GoString`);
* a Go `error` is a value of `GoError`, a nil error is `none`;
* a Go function returning `(value, error)` whose value is discarded by the caller when
  the error is non-nil is an `Except`; where both components reach the caller
  unchanged the result is a pair;
* calls into external libraries and services (PDF parsing, the GIN server, the file
  system) are explicit arguments of the embedded function.
-/

namespace GinDex

/-! ## Basic data -/

/-- One byte. -/
abbrev Byte := Fin 256

/-- A Go string: an immutable sequence of bytes. -/
abbrev GoString := List Byte

/-- Go error values that occur in the embedded code. -/
inductive GoError where
  /-- Sentinel `io.EOF`. -/
  | EOF
  /-- Sentinel `bufio.ErrBufferFull`. -/
  | ErrBufferFull
  /-- Sentinel `filepath.SkipDir`. -/
  | SkipDir
  /-- An error built in the repository with `fmt.Errorf`. -/
  | Errorf (msg : String)
  /-- An error value handed back by a library or a remote service. -/
  | Lib (msg : String)
deriving DecidableEq, Repr

/-! ## SHA-1 (`crypto/sha1.Sum`, FIPS 180-4) -/

/-- The five 32-bit chaining words of SHA-1. -/
structure Sha1State where
  h0 : Nat
  h1 : Nat
  h2 : Nat
  h3 : Nat
  h4 : Nat
deriving DecidableEq, Repr

/-- Rotate a 32-bit word left by `n` bits (`bits.RotateLeft32`). -/
def rotl32 (x n : Nat) : Nat := ((x <<< n) ||| (x >>> (32 - n))) % 2 ^ 32

/-- Big-endian value of a byte sequence. -/
def beWord (bs : List Byte) : Nat := bs.foldl (fun acc b => acc * 256 + b.val) 0

/-- The `k` low-order bytes of `x`, most significant first. -/
def beBytes : Nat → Nat → List Byte
  | 0, _ => []
  | k + 1, x => Fin.ofNat ((x >>> (8 * k)) % 256) :: beBytes k x

/-- Message padding: a `0x80` byte, zero bytes up to 56 modulo 64, then the bit length
as a 64-bit big-endian integer. -/
def sha1Pad (m : List Byte) : List Byte :=
  m ++ [0x80] ++ List.replicate ((55 + 64 - m.length % 64) % 64) 0
    ++ beBytes 8 ((8 * m.length) % 2 ^ 64)

/-- Split a padded message into `n` chunks of 64 bytes. -/
def sha1Chunks : Nat → List Byte → List (List Byte)
  | 0, _ => []
  | n + 1, l => l.take 64 :: sha1Chunks n (l.drop 64)

/-- Read `n` big-endian 32-bit words. -/
def sha1Words : Nat → List Byte → List Nat
  | 0, _ => []
  | n + 1, l => beWord (l.take 4) :: sha1Words n (l.drop 4)

/-- Expand the 16 words of a chunk to the 80 words of the message schedule. -/
def sha1Schedule (w16 : List Nat) : List Nat :=
  (List.range 64).foldl (fun w _ =>
    let i := w.length
    w ++ [rotl32 (w.getD (i - 3) 0 ^^^ w.getD (i - 8) 0 ^^^ w.getD (i - 14) 0
      ^^^ w.getD (i - 16) 0) 1]) w16

/-- One of the 80 rounds; `iw` is the round number with its schedule word. The fields
`h0 .. h4` hold the working variables `a .. e`. -/
def sha1Round (s : Sha1State) (iw : Nat × Nat) : Sha1State :=
  let i := iw.1
  let w := iw.2
  let f := if i < 20 then (s.h1 &&& s.h2) ||| (((2 ^ 32 - 1) ^^^ s.h1) &&& s.h3)
    else if i < 40 then s.h1 ^^^ s.h2 ^^^ s.h3
    else if i < 60 then (s.h1 &&& s.h2) ||| (s.h1 &&& s.h3) ||| (s.h2 &&& s.h3)
    else s.h1 ^^^ s.h2 ^^^ s.h3
  let k := if i < 20 then 0x5A827999 else if i < 40 then 0x6ED9EBA1
    else if i < 60 then 0x8F1BBCDC else 0xCA62C1D6
  { h0 := (rotl32 s.h0 5 + f + s.h4 + w + k) % 2 ^ 32, h1 := s.h0, h2 := rotl32 s.h1 30,
    h3 := s.h2, h4 := s.h3 }

/-- Compression of one 64-byte chunk into the chaining state. -/
def sha1Block (s : Sha1State) (chunk : List Byte) : Sha1State :=
  let w := sha1Schedule (sha1Words 16 chunk)
  let t := ((List.range 80).zip w).foldl sha1Round s
  { h0 := (s.h0 + t.h0) % 2 ^ 32, h1 := (s.h1 + t.h1) % 2 ^ 32, h2 := (s.h2 + t.h2) % 2 ^ 32,
    h3 := (s.h3 + t.h3) % 2 ^ 32, h4 := (s.h4 + t.h4) % 2 ^ 32 }

/-- Initial chaining value. -/
def sha1Init : Sha1State :=
  { h0 := 0x67452301, h1 := 0xEFCDAB89, h2 := 0x98BADCFE, h3 := 0x10325476, h4 := 0xC3D2E1F0 }

/-- Chaining state after the whole padded message. -/
def sha1Final (m : List Byte) : Sha1State :=
  (sha1Chunks ((sha1Pad m).length / 64) (sha1Pad m)).foldl sha1Block sha1Init

/-- The 20-byte digest `sha1.Sum(m)`. -/
def sha1Sum (m : List Byte) : List Byte :=
  beBytes 4 (sha1Final m).h0 ++ beBytes 4 (sha1Final m).h1 ++ beBytes 4 (sha1Final m).h2
    ++ beBytes 4 (sha1Final m).h3 ++ beBytes 4 (sha1Final m).h4

/-! ## Index identities (`util.go`, `GetIndexCommitId`, `GetIndexBlobId`) -/

/-- Source: `return sha1.Sum([]byte(repoid + id))`. -/
def GetIndexCommitId (id repoid : GoString) : List Byte := sha1Sum (repoid ++ id)

/-- Source: `return sha1.Sum([]byte(repoid + id))`. -/
def GetIndexBlobId (id repoid : GoString) : List Byte := sha1Sum (repoid ++ id)

/-! ## `UniqueStr` -/

/-- The key set of a Go `map[string]struct{}`: assigning `tmpM[data] = struct{}{}` adds
the key unless it is already present. -/
def mapAssign (m : List GoString) (key : GoString) : List GoString :=
  if key ∈ m then m else m ++ [key]

/-- The order in which `for key := range m` visits the keys of a map is not specified by
Go; an iteration order is any rearrangement of the keys. -/
structure MapOrder where
  iter : List GoString → List GoString
  iter_perm : ∀ keys, (iter keys).Perm keys

/-- Source: `UniqueStr`. The first loop fills the map, the second loop writes the keys,
in map iteration order, to `out[0], out[1], ...` where `out` has `len(tmpM)` slots. -/
def UniqueStr (order : MapOrder) (input : List GoString) : List GoString :=
  let tmpM := input.foldl mapAssign []
  order.iter tmpM

/-- Keys are visited in the order of their first assignment. -/
def insertionOrder : MapOrder := ⟨id, fun _ => List.Perm.refl _⟩

/-- Keys are visited in the reverse order of their first assignment. -/
def reverseOrder : MapOrder := ⟨List.reverse, fun l => List.reverse_perm l⟩

/-! ## `getOkRepoIds` -/

/-- The part of `gogs.Repository` that the code reads. -/
structure Repository where
  ID : Int
deriving DecidableEq, Repr

/-- The part of `SearchRequest` that `getOkRepoIds` reads. -/
structure SearchRequest where
  Token : GoString
  CsrfT : GoString
  UserID : Int

/-- What the request `GET /api/v1/user/repos` can lead to. -/
inductive UserReposAnswer where
  /-- `client.Get` returned an error. -/
  | getFailed (err : GoError)
  /-- Reading the response body failed. -/
  | readFailed (err : GoError)
  /-- The body was read; `repos` is what `json.Unmarshal` left in the slice and
  `unmarshalErr` its error, which the code only logs. -/
  | body (repos : List Repository) (unmarshalErr : Option GoError)

/-- The GIN server as seen by `getOkRepoIds`. -/
structure GinServer where
  /-- Repositories accessible to the holder of a token. -/
  userRepos : GoString → UserReposAnswer
  /-- Result of `getParsedHttpCall` on `/api/v1/repos/search/?limit=10000`, by token and
  CSRF token. -/
  searchRepos : GoString → GoString → Except GoError (List Repository)

/-- Decimal digits of a natural number as ASCII bytes. -/
def decimalDigits (n : Nat) : GoString :=
  (Nat.toDigits 10 n).map (fun c => Fin.ofNat c.toNat)

/-- The verb `%d` of `fmt.Sprintf` on an integer. -/
def formatInt (i : Int) : GoString :=
  (if i < 0 then [0x2d] else []) ++ decimalDigits i.natAbs

/-- Source: `getOkRepoIds`. -/
def getOkRepoIds (rbd : SearchRequest) (gins : GinServer) : Except GoError (List GoString) :=
  let own : Except GoError (List Repository) :=
    if rbd.UserID > -10 then
      match gins.userRepos rbd.Token with
      | .getFailed err => .error err
      | .readFailed err => .error err
      | .body repos _ => .ok repos
    else .ok []
  match own with
  | .error err => .error err
  | .ok repos =>
    match gins.searchRepos rbd.Token rbd.CsrfT with
    | .error err => .error err
    | .ok prepos => .ok ((repos ++ prepos).map (fun repo => formatInt repo.ID))

/-- A server on which repository 1 is both public and accessible to the caller. -/
def overlapServer : GinServer :=
  { userRepos := fun _ => .body [⟨1⟩] none, searchRepos := fun _ _ => .ok [⟨1⟩] }

/-- A request of the (non-anonymous) user 0. -/
def userZeroRequest : SearchRequest := { Token := [], CsrfT := [], UserID := 0 }

/-- A server on which repository 7 is accessible to the caller and repository 3 is
public. -/
def disjointServer : GinServer :=
  { userRepos := fun _ => .body [⟨7⟩] none, searchRepos := fun _ _ => .ok [⟨3⟩] }

/-! ## Buffered readers (`bufio.Reader`, `ioutil.ReadAll`) -/

/-- A `*bufio.Reader` over an underlying stream: the bytes that the stream still
delivers, the error with which it ends (`none` stands for `io.EOF`) and the size of the
buffer (`bufio.NewReader` allocates 4096 bytes). -/
structure Reader where
  stream : List Byte
  streamErr : Option GoError
  bufSize : Nat

/-- Library `ioutil.ReadAll`: all bytes up to the end of the stream; reaching `io.EOF`
is not an error. -/
def Reader.ReadAll (r : Reader) : Except GoError (List Byte) :=
  match r.streamErr with
  | none => .ok r.stream
  | some err => .error err

/-- Library `(*bufio.Reader).Peek(n)` for `n ≥ 0`: the next `n` bytes without advancing.
A request larger than the buffer gives what the buffer holds with `ErrBufferFull`; a
stream that ends before `n` bytes gives the bytes there are with the error of the
stream. -/
def Reader.Peek (r : Reader) (n : Nat) : List Byte × Option GoError :=
  if n > r.bufSize then (r.stream.take r.bufSize, some .ErrBufferFull)
  else if r.stream.length < n then (r.stream, some (r.streamErr.getD .EOF))
  else (r.stream.take n, none)

/-- The bytes that a reader can make available to `Peek`: those of the stream that fit
its buffer. -/
def Reader.available (r : Reader) : List Byte := r.stream.take r.bufSize

/-- The slice expression `s[lo:hi]`; `none` is the run-time panic for bounds out of
range. -/
def goSlice (s : List Byte) (lo hi : Nat) : Option (List Byte) :=
  if lo ≤ hi ∧ hi ≤ s.length then some ((s.take hi).drop lo) else none

/-! ## `GetNevComments` -/

/-- Outcome of a call of `GetNevComments`: a run-time panic, or the returned pair of
comment pointer (`none` is nil) and error. -/
inductive NevResult where
  | panic
  | ret (comment : Option GoString) (err : Option GoError)
deriving DecidableEq, Repr

/-- Source: `GetNevComments`. -/
def GetNevComments (blobBuf : Reader) : NevResult :=
  match blobBuf.Peek 332 with
  | (_, some err) => .ret none (some err)
  | (header, none) =>
    match goSlice header 76 332 with
    | none => .panic
    | some comment => .ret (some comment) none

/-! ## `GetPlainPdf` -/

/-- A page of a parsed document, as read through `page.GetContentStreams()`. -/
structure PdfPage where
  GetContentStreams : Except GoError (List GoString)

/-- A parsed document (`*pdf.PdfReader`), as read through the three methods the code
calls. -/
structure PdfReader where
  IsEncrypted : Except GoError Bool
  GetNumPages : Except GoError Int
  GetPage : Int → Except GoError PdfPage

/-- The unidoc library: `pdf.NewPdfReader` on the bytes of a document, and
`NewContentStreamParser(s).ExtractText()` on a content stream. -/
structure PdfLib where
  NewPdfReader : List Byte → Except GoError PdfReader
  ExtractText : GoString → GoString × Option GoError

/-- Body of the loop over the pages, for loop index `i`. A result `some r` is a `return r`
executed inside the loop, `none` means that the loop goes on with `i + 1`. -/
def pageLoopBody (lib : PdfLib) (pdoc : PdfReader) (i : Int) : Option (GoString × Option GoError) :=
  let pageNum := i + 1
  match pdoc.GetPage pageNum with
  | .error err => some ([], some err)
  | .ok page =>
    match page.GetContentStreams with
    | .error err => some ([], some err)
    | .ok contentStreams =>
      let pageContentStr := contentStreams.foldl (fun acc cstream => acc ++ cstream) []
      some (lib.ExtractText pageContentStr)

/-- The loop `for i := 0; i < numPages; i++`, started at `i` with `fuel` iterations left;
`none` means that the loop ended without a `return`. -/
def pageLoop (lib : PdfLib) (pdoc : PdfReader) (numPages : Int) :
    Nat → Int → Option (GoString × Option GoError)
  | 0, _ => none
  | fuel + 1, i =>
    if i < numPages then
      match pageLoopBody lib pdoc i with
      | some r => some r
      | none => pageLoop lib pdoc numPages fuel (i + 1)
    else none

set_option linter.unusedVariables false in
/-- Source: `GetPlainPdf`. The argument `size` is not read by the body. -/
def GetPlainPdf (lib : PdfLib) (blobBuffer : Reader) (size : Int) : GoString × Option GoError :=
  match blobBuffer.ReadAll with
  | .error err => ([], some err)
  | .ok data =>
    match lib.NewPdfReader data with
    | .error err => ([], some err)
    | .ok pdoc =>
      match pdoc.IsEncrypted with
      | .error err => ([], some err)
      | .ok isEncrypted =>
        if isEncrypted then ([], some (.Errorf "PDF encrypted"))
        else
          match pdoc.GetNumPages with
          | .error err => ([], some err)
          | .ok numPages =>
            match pageLoop lib pdoc numPages numPages.toNat 0 with
            | some r => r
            | none => ([], some (.Errorf "Could not extract text from PDF"))

/-- The text that C4 describes for a document of `n` readable pages: the texts extracted
from the joined content streams of pages `1 .. n`, concatenated in this order. -/
def textOfAllPages (lib : PdfLib) (pdoc : PdfReader) (n : Nat) : GoString :=
  (List.range n).foldl (fun acc i =>
    match pdoc.GetPage ((i : Int) + 1) with
    | .ok page =>
      match page.GetContentStreams with
      | .ok contentStreams =>
        acc ++ (lib.ExtractText (contentStreams.foldl (fun a c => a ++ c) [])).1
      | .error _ => acc
    | .error _ => acc) []

/-- An unencrypted document of two pages; page 1 has the content stream "A" and page 2
the content stream "B". -/
def twoPageDoc : PdfReader :=
  { IsEncrypted := .ok false
    GetNumPages := .ok 2
    GetPage := fun n =>
      if n = 1 then .ok ⟨.ok [[0x41]]⟩
      else if n = 2 then .ok ⟨.ok [[0x42]]⟩
      else .error (.Lib "page out of range") }

/-- An encrypted document of one page with the content stream "A". -/
def encryptedDoc : PdfReader :=
  { IsEncrypted := .ok true
    GetNumPages := .ok 1
    GetPage := fun _ => .ok ⟨.ok [[0x41]]⟩ }

/-- A stand-in for the library: every byte sequence parses to the document `doc`, and the
text of a content stream is the stream itself. -/
def echoLib (doc : PdfReader) : PdfLib :=
  { NewPdfReader := fun _ => .ok doc, ExtractText := fun s => (s, none) }

/-- A reader over the given bytes that ends with `io.EOF`, with the default buffer. -/
def readerOf (bytes : List Byte) : Reader :=
  { stream := bytes, streamErr := none, bufSize := 4096 }

/-! ## `findRepos` and `filepath.Walk` -/

/-- A path, as the list of its components; `filepath.Join(path, name)` appends one
component. -/
abbrev Path := List GoString

mutual
/-- A node of the directory tree: a file, or a directory with its entries. -/
inductive FsNode where
  | file
  | dir (entries : FsEntries)
/-- The entries of a directory, in the order in which `Walk` reads them (sorted by
name). -/
inductive FsEntries where
  | nil
  | cons (name : GoString) (node : FsNode) (rest : FsEntries)
end

/-- Whether a node is a directory (`info.IsDir()`). -/
def FsNode.IsDir : FsNode → Bool
  | .file => false
  | .dir _ => true

/-- The repository store with the services `findRepos` consults. -/
structure Store where
  /-- Library `gig.OpenRepository(path)`: the field `Path` of the opened repository, or
  `none` when the directory is not a repository (the call returns an error). -/
  OpenRepository : Path → Option Path
  /-- Service `client.GetRepo(path)` for a client with the given token. -/
  GetRepo : GoString → Path → Except GoError Repository

/-- The part of `ReIndexRequest` that is read. -/
structure ReIndexRequest where
  Token : GoString

/-- Source: `hasRepoAccess`. -/
def hasRepoAccess (st : Store) (repository : Path) (rbd : ReIndexRequest) :
    Except GoError Repository :=
  st.GetRepo rbd.Token repository

/-- State threaded through a walk: the slice `repos` captured by the callback, and the
paths on which `Walk` has called the callback so far. -/
structure WalkState where
  repos : List Repository
  visited : List Path

/-- Source: the function literal passed to `filepath.Walk` in `findRepos`; the result is
the new value of `repos` and the returned error. -/
def walkFn (st : Store) (rbd : ReIndexRequest) (repos : List Repository) (path : Path)
    (isDir : Bool) : List Repository × Option GoError :=
  if !isDir then (repos, none)
  else
    match st.OpenRepository path with
    | none => (repos, none)
    | some repo =>
      match hasRepoAccess st repo rbd with
      | .error _ => (repos, some .SkipDir)
      | .ok gRepo => (repos ++ [gRepo], some .SkipDir)

mutual
/-- Library `filepath.walk(path, info, walkFn)`: a file is handed to the callback; for a
directory the callback is called first, any error it returns ends the walk of this
directory, otherwise the entries are walked in order. -/
def walk (st : Store) (rbd : ReIndexRequest) (path : Path) :
    FsNode → WalkState → WalkState × Option GoError
  | .file, s =>
    let r := walkFn st rbd s.repos path false
    (⟨r.1, s.visited ++ [path]⟩, r.2)
  | .dir entries, s =>
    let r := walkFn st rbd s.repos path true
    match r.2 with
    | some err1 => (⟨r.1, s.visited ++ [path]⟩, some err1)
    | none => walkEntries st rbd path entries ⟨r.1, s.visited ++ [path]⟩
/-- The loop over the names of a directory in `filepath.walk`: an error of the walk of an
entry ends the loop, unless the entry is a directory and the error is `SkipDir`. -/
def walkEntries (st : Store) (rbd : ReIndexRequest) (path : Path) :
    FsEntries → WalkState → WalkState × Option GoError
  | .nil, s => (s, none)
  | .cons name node rest, s =>
    let r := walk st rbd (path ++ [name]) node s
    match r.2 with
    | some err =>
      if !node.IsDir || err ≠ .SkipDir then (r.1, some err)
      else walkEntries st rbd path rest r.1
    | none => walkEntries st rbd path rest r.1
end

/-- Library `filepath.Walk(root, walkFn)` on a root that exists: the walk of the root,
with a resulting `SkipDir` turned into nil. -/
def Walk (st : Store) (rbd : ReIndexRequest) (rpath : Path) (root : FsNode) :
    WalkState × Option GoError :=
  let r := walk st rbd rpath root ⟨[], []⟩
  (r.1, if r.2 = some .SkipDir then none else r.2)

/-- Source: `findRepos`, the returned pair `repos, err`. -/
def findRepos (st : Store) (rbd : ReIndexRequest) (rpath : Path) (root : FsNode) :
    List Repository × Option GoError :=
  let r := Walk st rbd rpath root
  (r.1.repos, r.2)

/-- The paths on which the walk of `findRepos` calls its callback, in order. -/
def findReposVisited (st : Store) (rbd : ReIndexRequest) (rpath : Path) (root : FsNode) :
    List Path :=
  (Walk st rbd rpath root).1.visited

mutual
/-- All nodes of a tree in depth-first order, each as its path relative to the start
path together with whether it is a directory. -/
def treeNodes (rel : Path) : FsNode → List (Path × Bool)
  | .file => [(rel, false)]
  | .dir entries => (rel, true) :: entriesNodes rel entries
/-- All nodes below the entries of the directory at `rel`, in depth-first order. -/
def entriesNodes (rel : Path) : FsEntries → List (Path × Bool)
  | .nil => []
  | .cons name node rest => treeNodes (rel ++ [name]) node ++ entriesNodes rel rest
end

/-- Whether the directory at a path is a repository root. -/
def isRepoRoot (st : Store) (path : Path) : Bool := (st.OpenRepository path).isSome

/-- Whether the node at `rpath ++ rel` has a proper ancestor, from the start path `rpath`
downwards, that is a repository root. -/
def hasRepoAncestor (st : Store) (rpath rel : Path) : Bool :=
  (List.range rel.length).any (fun k => isRepoRoot st (rpath ++ rel.take k))

/-- The repository reported for a node by C3: the node is a directory and a repository
root, none of its proper ancestors is one, and the access check succeeds. -/
def reportedRepo (st : Store) (rbd : ReIndexRequest) (rpath : Path) (n : Path × Bool) :
    Option Repository :=
  if n.2 && !hasRepoAncestor st rpath n.1 then
    match st.OpenRepository (rpath ++ n.1) with
    | none => none
    | some repo =>
      match hasRepoAccess st repo rbd with
      | .error _ => none
      | .ok gRepo => some gRepo
  else none

/-- The repositories that C3 describes, in depth-first order. -/
def expectedRepos (st : Store) (rbd : ReIndexRequest) (rpath : Path) (root : FsNode) :
    List Repository :=
  (treeNodes [] root).filterMap (reportedRepo st rbd rpath)

/-- The paths that C3 lets the walk reach: the nodes without a repository root among
their proper ancestors. -/
def expectedVisited (st : Store) (rpath : Path) (root : FsNode) : List Path :=
  ((treeNodes [] root).filter (fun n => !hasRepoAncestor st rpath n.1)).map
    (fun n => rpath ++ n.1)

/-- The name "a". -/
def nameA : GoString := [0x61]

/-- The name "b". -/
def nameB : GoString := [0x62]

/-- The name "c". -/
def nameC : GoString := [0x63]

/-- A store `/data` with entries `a` (a repository without access, containing a nested
repository `c`), `b` (a plain directory containing the repository `c`) and a file `c`. -/
def sampleTree : FsNode :=
  .dir (.cons nameA (.dir (.cons nameC (.dir .nil) .nil))
    (.cons nameB (.dir (.cons nameC (.dir .nil) .nil))
      (.cons nameC .file .nil)))

/-- In the sample store every directory named `a` or `c` is a repository; access is
denied to `a` and granted to the others, the repository id being the depth of the
path. -/
def sampleStore : Store :=
  { OpenRepository := fun p =>
      if p.getLast? = some nameA ∨ p.getLast? = some nameC then some p else none
    GetRepo := fun _ p =>
      if p.getLast? = some nameA then .error (.Lib "403") else .ok ⟨p.length⟩ }

/-! ## `loadconfig` and `strconv` -/

/-- The two causes of a `*strconv.NumError`. -/
inductive NumError where
  /-- Sentinel `strconv.ErrSyntax`. -/
  | ErrSyntax
  /-- Sentinel `strconv.ErrRange`. -/
  | ErrRange
deriving DecidableEq, Repr

/-- Library: the loop of `strconv.ParseUint` over the bytes of the string, for a base
from 2 to 36, with `n` the value accumulated in a `uint64`. -/
def parseUintLoop (base maxVal : Nat) : List Byte → Nat → Nat × Option NumError
  | [], n => (n, none)
  | c :: cs, n =>
    let lower := c.val ||| 0x20
    let digit : Option Nat :=
      if 0x30 ≤ c.val ∧ c.val ≤ 0x39 then some (c.val - 0x30)
      else if 0x61 ≤ lower ∧ lower ≤ 0x7a then some (lower - 0x61 + 10)
      else none
    match digit with
    | none => (0, some .ErrSyntax)
    | some d =>
      if d ≥ base then (0, some .ErrSyntax)
      else if n ≥ (2 ^ 64 - 1) / base + 1 then (maxVal, some .ErrRange)
      else
        let n0 := (n * base) % 2 ^ 64
        let n1 := (n0 + d) % 2 ^ 64
        if n1 < n0 ∨ n1 > maxVal then (maxVal, some .ErrRange)
        else parseUintLoop base maxVal cs n1

/-- Library `strconv.ParseUint(s, base, bitSize)` for `2 ≤ base ≤ 36` and
`1 ≤ bitSize ≤ 64`. -/
def ParseUint (s : GoString) (base bitSize : Nat) : Nat × Option NumError :=
  if s = [] then (0, some .ErrSyntax)
  else parseUintLoop base ((2 ^ bitSize - 1) % 2 ^ 64) s 0

/-- The conversion `int64(x)` of an integer value: reduction to the range
`-2^63 .. 2^63 - 1` modulo `2^64`. -/
def toInt64 (x : Int) : Int := (x + 2 ^ 63) % 2 ^ 64 - 2 ^ 63

/-- Library `strconv.ParseInt(s, base, bitSize)` for `2 ≤ base ≤ 36` and
`1 ≤ bitSize ≤ 64`. -/
def ParseInt (s : GoString) (base bitSize : Nat) : Int × Option NumError :=
  match s with
  | [] => (0, some .ErrSyntax)
  | c :: cs =>
    let neg : Bool := c.val = 0x2d
    let rest : GoString := if c.val = 0x2b ∨ c.val = 0x2d then cs else c :: cs
    let r := ParseUint rest base bitSize
    if r.2 = some .ErrSyntax then (0, some .ErrSyntax)
    else
      let un := r.1
      let cutoff := 2 ^ (bitSize - 1)
      if !neg && un ≥ cutoff then (toInt64 (cutoff - 1 : Nat), some .ErrRange)
      else if neg && un > cutoff then (toInt64 (-(cutoff : Int)), some .ErrRange)
      else
        let n := toInt64 un
        (if neg then toInt64 (-n) else n, none)

/-- The environment variables that `loadconfig` reads; `none` is an unset variable. -/
structure ConfEnv where
  repository_store : Option GoString
  key : Option GoString
  text_max : Option GoString
  pdf_max : Option GoString
  timeout : Option GoString
  port : Option GoString
  elastic_url : Option GoString

/-- Library `libgin.ReadConf`: the value of the variable, empty when unset. -/
def ReadConf (value : Option GoString) : GoString :=
  match value with
  | some v => v
  | none => []

/-- Library `libgin.ReadConfDefault`: the value of the variable, `defval` when unset. -/
def ReadConfDefault (value : Option GoString) (defval : GoString) : GoString :=
  match value with
  | some v => v
  | none => defval

/-- Source: `Configuration`; `ES` is the type `*ESServer`. -/
structure Configuration (ES : Type) where
  Port : Nat
  Key : GoString
  RepositoryStore : GoString
  MaxTextSize : Int
  MaxPDFSize : Int
  Timeout : Int
  Elasticsearch : ES

/-- Source: `loadconfig`. The constructor `NewESServer(esurl, "blobs", "commits", nil, nil)`
and the method `Init` of the search server are the arguments `newES` and `init`; the
result `none` is the exit of the process after a failed `Init`. -/
def loadconfig {ES : Type} (env : ConfEnv) (newES : GoString → ES)
    (init : ES → Option GoError) : Option (Configuration ES) :=
  let RepositoryStore := ReadConf env.repository_store
  let Key := ReadConf env.key
  let rTxt := ParseInt (ReadConfDefault env.text_max [0x31, 0x30]) 10 64
  let maxTxt : Int := if rTxt.2 ≠ none then 10 else rTxt.1
  let rPDF := ParseInt (ReadConfDefault env.pdf_max [0x31, 0x30, 0x30]) 10 64
  let maxPDF : Int := if rPDF.2 ≠ none then 100 else rPDF.1
  let rTimeout := ParseInt (ReadConfDefault env.timeout [0x36, 0x30]) 10 64
  let timeout : Int := if rTimeout.2 ≠ none then 60 else rTimeout.1
  let portstr := ReadConfDefault env.port [0x38, 0x30, 0x39, 0x39]
  let rPort := ParseUint portstr 10 16
  let port : Nat := if rPort.2 ≠ none then 8099 else rPort.1
  let els := newES (ReadConf env.elastic_url)
  match init els with
  | some _ => none
  | none =>
    some { Port := port % 2 ^ 16, Key := Key, RepositoryStore := RepositoryStore,
           MaxTextSize := maxTxt, MaxPDFSize := maxPDF, Timeout := timeout,
           Elasticsearch := els }

/-- Whether a byte is one of the ASCII digits "0" to "9". -/
def isDecimalDigit (c : Byte) : Bool := decide (0x30 ≤ c.val ∧ c.val ≤ 0x39)

/-- The number that a string of decimal digits denotes, continuing from `v`. -/
def decimalValueFrom (v : Nat) (ds : List Byte) : Nat :=
  ds.foldl (fun acc c => 10 * acc + (c.val - 0x30)) v

/-- The number that a string of decimal digits denotes. -/
def decimalValue (ds : List Byte) : Nat := decimalValueFrom 0 ds

/-- The natural number written by a string, when the string is a base-10 unsigned
integer: one or more decimal digits. -/
def decimalNat? (s : GoString) : Option Nat :=
  if s ≠ [] ∧ s.all isDecimalDigit = true then some (decimalValue s) else none

/-- The integer written by a string, when the string is a base-10 integer: an optional
sign "+" or "-" followed by one or more decimal digits. -/
def decimalInt? (s : GoString) : Option Int :=
  match s with
  | [] => none
  | c :: cs =>
    if c.val = 0x2d then (decimalNat? cs).map (fun v => -(v : Int))
    else if c.val = 0x2b then (decimalNat? cs).map (fun v => (v : Int))
    else (decimalNat? (c :: cs)).map (fun v => (v : Int))

/-- The value C9 gives a signed setting: the integer written by the string when it is a
base-10 integer that fits a signed 64-bit integer, the default otherwise. -/
def signedSetting (s : GoString) (defval : Int) : Int :=
  match decimalInt? s with
  | some v => if -(2 : Int) ^ 63 ≤ v ∧ v < (2 : Int) ^ 63 then v else defval
  | none => defval

/-- The value C9 gives the port: the number written by the string when it is a base-10
unsigned integer from 0 to 65535, and 8099 otherwise. -/
def portSetting (s : GoString) : Nat :=
  match decimalNat? s with
  | some v => if v ≤ 65535 then v else 8099
  | none => 8099

/-- An environment in which `text_max` is "25", `pdf_max` is "-3x", `timeout` is
"9223372036854775808" (one more than the largest signed 64-bit integer) and `port` is
"65536". -/
def sampleEnv : ConfEnv :=
  { repository_store := none, key := none
    text_max := some [0x32, 0x35]
    pdf_max := some [0x2d, 0x33, 0x78]
    timeout := some [0x39, 0x32, 0x32, 0x33, 0x33, 0x37, 0x32, 0x30, 0x33, 0x36, 0x38,
      0x35, 0x34, 0x37, 0x37, 0x35, 0x38, 0x30, 0x38]
    port := some [0x36, 0x35, 0x35, 0x33, 0x36]
    elastic_url := none }

/-! # Properties -/

/-- Every digest has 20 bytes. -/
theorem sha1Sum_length (m : List Byte) : (sha1Sum m).length = 20 := by
  simp [sha1Sum, beBytes]

set_option maxRecDepth 100000 in
/-- Test vector of FIPS 180: the digest of the three bytes of "abc". -/
theorem sha1Sum_abc : sha1Sum [0x61, 0x62, 0x63] =
    [0xa9, 0x99, 0x3e, 0x36, 0x47, 0x06, 0x81, 0x6a, 0xba, 0x3e, 0x25, 0x71, 0x78, 0x50,
      0xc2, 0x6c, 0x9c, 0xd0, 0xd8, 0x9d] := by
  decide

set_option maxRecDepth 100000 in
/-- The digest of the empty message. -/
theorem sha1Sum_empty : sha1Sum [] =
    [0xda, 0x39, 0xa3, 0xee, 0x5e, 0x6b, 0x4b, 0x0d, 0x32, 0x55, 0xbf, 0xef, 0x95, 0x60,
      0x18, 0x90, 0xaf, 0xd8, 0x07, 0x09] := by
  decide

/-- C1, as stated, fails: the identity of blobs is not injective in the repository id.
Digests have 20 bytes while repository ids range over all strings, so for a fixed
object id two different repository ids share one blob identity. -/
theorem GetIndexBlobId_not_namespaced :
    ¬ ∀ obj repoA repoB : GoString, repoA ≠ repoB →
      GetIndexBlobId obj repoA ≠ GetIndexBlobId obj repoB ∧
      GetIndexCommitId obj repoA ≠ GetIndexCommitId obj repoB := by
  intro h
  have hinj : Function.Injective (fun repo : GoString => GetIndexBlobId [] repo) := by
    intro a b hab
    by_contra hne
    exact (h [] a b hne).1 hab
  have hinf : {l : List Byte | l.length = 20}.Infinite :=
    Set.infinite_of_injective_forall_mem hinj (fun repo => sha1Sum_length _)
  exact hinf (List.finite_length_eq Byte 20)

/-- C1, amended: for two different repository ids and one object id the strings that are
hashed differ, and the identities of commits and of blobs are the SHA-1 digests of these
strings; so the identities coincide exactly when SHA-1 collides on these two different
inputs. -/
theorem GetIndexId_namespaced_up_to_sha1 (obj repoA repoB : GoString) (h : repoA ≠ repoB) :
    repoA ++ obj ≠ repoB ++ obj ∧
    (GetIndexBlobId obj repoA = GetIndexBlobId obj repoB ↔
      sha1Sum (repoA ++ obj) = sha1Sum (repoB ++ obj)) ∧
    (GetIndexCommitId obj repoA = GetIndexCommitId obj repoB ↔
      sha1Sum (repoA ++ obj) = sha1Sum (repoB ++ obj)) := by
  refine ⟨fun heq => h (List.append_cancel_right heq), Iff.rfl, Iff.rfl⟩

/-- Witness for C1 amended: repository ids "1" and "2" with object id "x". -/
theorem GetIndexId_namespaced_up_to_sha1_witness :
    ([0x31] : GoString) ≠ [0x32] ∧
    (([0x31] : GoString) ++ [0x78] ≠ [0x32] ++ [0x78] ∧
    (GetIndexBlobId [0x78] [0x31] = GetIndexBlobId [0x78] [0x32] ↔
      sha1Sum ([0x31] ++ [0x78]) = sha1Sum ([0x32] ++ [0x78])) ∧
    (GetIndexCommitId [0x78] [0x31] = GetIndexCommitId [0x78] [0x32] ↔
      sha1Sum ([0x31] ++ [0x78]) = sha1Sum ([0x32] ++ [0x78]))) :=
  ⟨by decide, GetIndexId_namespaced_up_to_sha1 [0x78] [0x31] [0x32] (by decide)⟩

/-- C10: the hashed string is the plain concatenation, so the pairs ("1", "23") and
("12", "3") of repository id and object id, which differ in both components, get the
same blob identity; and commits and blobs use the same function. -/
theorem GetIndexId_concatenation_ambiguous :
    (∃ repoA objA repoB objB : GoString, repoA ≠ repoB ∧ objA ≠ objB ∧
      GetIndexBlobId objA repoA = GetIndexBlobId objB repoB) ∧
    GetIndexBlobId [0x32, 0x33] [0x31] = GetIndexBlobId [0x33] [0x31, 0x32] ∧
    ∀ id repoid : GoString, GetIndexCommitId id repoid = GetIndexBlobId id repoid := by
  have key : GetIndexBlobId [0x32, 0x33] [0x31] = GetIndexBlobId [0x33] [0x31, 0x32] := by
    show sha1Sum _ = sha1Sum _
    exact congrArg sha1Sum (by decide)
  exact ⟨⟨[0x31], [0x32, 0x33], [0x31, 0x32], [0x33], by decide, by decide, key⟩, key,
    fun _ _ => rfl⟩

/-! ### Evaluation on samples -/

/-- With keys visited in insertion order, `UniqueStr ["a", "b", "a", "c"]` is
`["a", "b", "c"]`; in reverse order it is `["c", "b", "a"]`. -/
theorem UniqueStr_sample :
    UniqueStr insertionOrder [[0x61], [0x62], [0x61], [0x63]] = [[0x61], [0x62], [0x63]] ∧
    UniqueStr reverseOrder [[0x61], [0x62], [0x61], [0x63]] = [[0x63], [0x62], [0x61]] := by
  decide

/-- On the sample store only the repository `b/c` is reported: `a` is a repository
without access, `a/c` lies inside it, and the entry `c` of the root is a file. -/
theorem findRepos_sample :
    findRepos sampleStore ⟨[]⟩ [[0x64]] sampleTree = ([⟨3⟩], none) ∧
    findReposVisited sampleStore ⟨[]⟩ [[0x64]] sampleTree =
      [[[0x64]], [[0x64], nameA], [[0x64], nameB], [[0x64], nameB, nameC], [[0x64], nameC]] := by
  decide

/-- On the sample environment `text_max` is taken as 25, while the malformed `pdf_max`,
the `timeout` beyond 64 signed bits and the `port` beyond 65535 give the defaults. -/
theorem loadconfig_sample :
    (loadconfig sampleEnv (fun url => url) (fun _ => none)).map
      (fun c => (c.MaxTextSize, c.MaxPDFSize, c.Timeout, c.Port)) = some (25, 100, 60, 8099) := by
  decide

/-- The smallest signed 64-bit integer is parsed, the digits "9223372036854775808"
without a sign are out of range. -/
theorem ParseInt_sample :
    ParseInt [0x2d, 0x39, 0x32, 0x32, 0x33, 0x33, 0x37, 0x32, 0x30, 0x33, 0x36, 0x38,
      0x35, 0x34, 0x37, 0x37, 0x35, 0x38, 0x30, 0x38] 10 64 = (-9223372036854775808, none) ∧
    ParseInt [0x39, 0x32, 0x32, 0x33, 0x33, 0x37, 0x32, 0x30, 0x33, 0x36, 0x38,
      0x35, 0x34, 0x37, 0x37, 0x35, 0x38, 0x30, 0x38] 10 64 =
        (9223372036854775807, some .ErrRange) ∧
    ParseUint [0x36, 0x35, 0x35, 0x33, 0x36] 10 16 = (65535, some .ErrRange) := by
  decide

/-! ### `UniqueStr` -/

theorem mem_foldl_mapAssign (l acc : List GoString) (s : GoString) :
    s ∈ l.foldl mapAssign acc ↔ s ∈ acc ∨ s ∈ l := by
  induction l generalizing acc with
  | nil => simp
  | cons x xs ih =>
    rw [List.foldl_cons, ih]
    by_cases hx : x ∈ acc
    · simp only [mapAssign, hx, if_true, List.mem_cons]
      constructor
      · rintro (h | h)
        · exact Or.inl h
        · exact Or.inr (Or.inr h)
      · rintro (h | h | h)
        · exact Or.inl h
        · exact Or.inl (h ▸ hx)
        · exact Or.inr h
    · simp only [mapAssign, hx, if_false, List.mem_append, List.mem_singleton, List.mem_cons]
      tauto

theorem nodup_foldl_mapAssign (l acc : List GoString) (h : acc.Nodup) :
    (l.foldl mapAssign acc).Nodup := by
  induction l generalizing acc with
  | nil => simpa using h
  | cons x xs ih =>
    rw [List.foldl_cons]
    apply ih
    by_cases hx : x ∈ acc
    · simpa [mapAssign, hx] using h
    · simp only [mapAssign, hx, if_false]
      exact List.Nodup.append h (List.nodup_singleton x) (by simpa using hx)

/-- C8: whatever the iteration order of the map, `UniqueStr` returns every string of its
input exactly once and nothing else, so its length is the number of distinct strings of
the input; on ["a", "b", "a", "c"] it returns a rearrangement of ["a", "b", "c"]. -/
theorem UniqueStr_distinct (order : MapOrder) (input : List GoString) :
    (UniqueStr order input).Nodup ∧
    (∀ s, s ∈ UniqueStr order input ↔ s ∈ input) ∧
    (UniqueStr order input).length = input.toFinset.card ∧
    (UniqueStr order [[0x61], [0x62], [0x61], [0x63]]).Perm [[0x61], [0x62], [0x63]] := by
  have hperm := order.iter_perm (input.foldl mapAssign [])
  have hnd : (UniqueStr order input).Nodup :=
    hperm.nodup_iff.mpr (nodup_foldl_mapAssign input [] List.nodup_nil)
  have hmem : ∀ s, s ∈ UniqueStr order input ↔ s ∈ input := by
    intro s
    show s ∈ order.iter _ ↔ _
    rw [hperm.mem_iff, mem_foldl_mapAssign]
    simp
  refine ⟨hnd, hmem, ?_, ?_⟩
  · rw [← List.toFinset_card_of_nodup hnd]
    congr 1
    ext s
    simp [hmem]
  · exact order.iter_perm _

/-! ### `getOkRepoIds` -/

/-- C2, as stated, fails: when repository 1 is public and also accessible to the caller,
both queries succeed and `getOkRepoIds` returns the identifier "1" twice. -/
theorem getOkRepoIds_keeps_duplicates :
    overlapServer.userRepos userZeroRequest.Token = .body [⟨1⟩] none ∧
    overlapServer.searchRepos userZeroRequest.Token userZeroRequest.CsrfT = .ok [⟨1⟩] ∧
    getOkRepoIds userZeroRequest overlapServer = .ok [[0x31], [0x31]] ∧
    ¬ ([[0x31], [0x31]] : List GoString).Nodup := by
  exact ⟨rfl, rfl, rfl, by decide⟩

/-- C2, amended: when both queries succeed, `getOkRepoIds` returns the identifiers of the
caller's own repositories (none for the anonymous sentinel, `UserID ≤ -10`) followed by
the identifiers of the public repositories, one entry per repository of either answer;
the set of its elements is exactly the ids of public together with the ids of own. -/
theorem getOkRepoIds_union (rbd : SearchRequest) (gins : GinServer)
    (own pub : List Repository) (uerr : Option GoError)
    (hown : rbd.UserID > -10 → gins.userRepos rbd.Token = .body own uerr)
    (hpub : gins.searchRepos rbd.Token rbd.CsrfT = .ok pub) :
    getOkRepoIds rbd gins =
      .ok (((if rbd.UserID > -10 then own else []) ++ pub).map (fun repo => formatInt repo.ID)) ∧
    ∀ x, x ∈ ((if rbd.UserID > -10 then own else []) ++ pub).map (fun repo => formatInt repo.ID) ↔
      (∃ r ∈ pub, x = formatInt r.ID) ∨ (rbd.UserID > -10 ∧ ∃ r ∈ own, x = formatInt r.ID) := by
  constructor
  · by_cases hu : rbd.UserID > -10
    · simp [getOkRepoIds, hu, hown hu, hpub]
    · simp [getOkRepoIds, hu, hpub]
  · intro x
    by_cases hu : rbd.UserID > -10
    · simp only [hu, if_true, List.map_append, List.mem_append, List.mem_map, true_and]
      constructor
      · rintro (⟨r, hr, rfl⟩ | ⟨r, hr, rfl⟩)
        · exact Or.inr ⟨r, hr, rfl⟩
        · exact Or.inl ⟨r, hr, rfl⟩
      · rintro (⟨r, hr, rfl⟩ | ⟨r, hr, rfl⟩)
        · exact Or.inr ⟨r, hr, rfl⟩
        · exact Or.inl ⟨r, hr, rfl⟩
    · simp only [hu, if_false, List.nil_append, List.mem_map, false_and, or_false]
      constructor
      · rintro ⟨r, hr, rfl⟩
        exact ⟨r, hr, rfl⟩
      · rintro ⟨r, hr, rfl⟩
        exact ⟨r, hr, rfl⟩

/-- Witness for C2 amended: user 0 on a server with own repository 7 and public
repository 3. -/
theorem getOkRepoIds_union_witness :
    getOkRepoIds userZeroRequest disjointServer =
      .ok (((if userZeroRequest.UserID > -10 then [(⟨7⟩ : Repository)] else []) ++
        [(⟨3⟩ : Repository)]).map (fun repo => formatInt repo.ID)) ∧
    ∀ x, x ∈ ((if userZeroRequest.UserID > -10 then [(⟨7⟩ : Repository)] else []) ++
        [(⟨3⟩ : Repository)]).map (fun repo => formatInt repo.ID) ↔
      (∃ r ∈ [(⟨3⟩ : Repository)], x = formatInt r.ID) ∨
        (userZeroRequest.UserID > -10 ∧ ∃ r ∈ [(⟨7⟩ : Repository)], x = formatInt r.ID) :=
  getOkRepoIds_union userZeroRequest disjointServer [⟨7⟩] [⟨3⟩] none (fun _ => rfl) rfl

/-! ### `GetNevComments` -/

theorem drop_take_window (s : List Byte) (b : Nat) (hb : 332 ≤ b) :
    ((s.take 332).take 332).drop 76 = ((s.take b).drop 76).take 256 := by
  rw [List.take_take, List.drop_take, List.drop_take, List.take_take]
  congr 1
  omega

/-- C7: `GetNevComments` returns an error and no comment exactly when fewer than 332 bytes
are available from the reader; with at least 332 bytes available it returns the 256 bytes
at offsets 76 up to 332 (excluded) and no error; the slice `header[76:332]` never panics.
For a reader whose buffer holds 332 bytes, as the default buffer does, fewer than 332
bytes are available only when the stream itself is shorter than 332 bytes. -/
theorem GetNevComments_bounds (blobBuf : Reader) :
    GetNevComments blobBuf ≠ .panic ∧
    ((∃ err, GetNevComments blobBuf = .ret none (some err)) ↔
      blobBuf.available.length < 332) ∧
    (332 ≤ blobBuf.available.length →
      GetNevComments blobBuf = .ret (some ((blobBuf.available.drop 76).take 256)) none ∧
      ((blobBuf.available.drop 76).take 256).length = 256) ∧
    (332 ≤ blobBuf.bufSize → blobBuf.available.length < 332 →
      blobBuf.stream.length < 332) := by
  have hav : blobBuf.available.length = min blobBuf.bufSize blobBuf.stream.length := by
    simp [Reader.available]
  by_cases h1 : 332 > blobBuf.bufSize
  · have hres : GetNevComments blobBuf = .ret none (some .ErrBufferFull) := by
      simp [GetNevComments, Reader.Peek, h1]
    have hlt : blobBuf.available.length < 332 := by rw [hav]; omega
    refine ⟨by simp [hres], ⟨fun _ => hlt, fun _ => ⟨_, hres⟩⟩, fun h => by omega,
      fun h => by omega⟩
  · by_cases h2 : blobBuf.stream.length < 332
    · have hres : GetNevComments blobBuf = .ret none (some (blobBuf.streamErr.getD .EOF)) := by
        simp [GetNevComments, Reader.Peek, h1, h2]
      have hlt : blobBuf.available.length < 332 := by rw [hav]; omega
      refine ⟨by simp [hres], ⟨fun _ => hlt, fun _ => ⟨_, hres⟩⟩, fun h => by omega,
        fun _ _ => h2⟩
    · have hlen : (blobBuf.stream.take 332).length = 332 := by
        rw [List.length_take]; omega
      have hres : GetNevComments blobBuf =
          .ret (some ((blobBuf.available.drop 76).take 256)) none := by
        have hs : goSlice (blobBuf.stream.take 332) 76 332 =
            some ((blobBuf.available.drop 76).take 256) := by
          unfold goSlice
          rw [if_pos ⟨by omega, by omega⟩, Reader.available,
            drop_take_window blobBuf.stream blobBuf.bufSize (by omega)]
        simp [GetNevComments, Reader.Peek, h1, h2, hs]
      have hge : ¬ blobBuf.available.length < 332 := by rw [hav]; omega
      refine ⟨by simp [hres], ⟨fun ⟨err, he⟩ => ?_, fun h => absurd h hge⟩, fun _ => ⟨hres, ?_⟩,
        fun _ h => absurd h hge⟩
      · rw [hres] at he
        simp at he
      · rw [List.length_take, List.length_drop, hav]
        omega

/-! ### `GetPlainPdf` -/

/-- C6: when the reader reports the document as encrypted, `GetPlainPdf` returns the empty
string and the error "PDF encrypted", whatever the pages and their content are. -/
theorem GetPlainPdf_encrypted (lib : PdfLib) (blobBuffer : Reader) (size : Int)
    (data : List Byte) (pdoc : PdfReader)
    (hread : blobBuffer.ReadAll = .ok data) (hparse : lib.NewPdfReader data = .ok pdoc)
    (henc : pdoc.IsEncrypted = .ok true) :
    GetPlainPdf lib blobBuffer size = ([], some (.Errorf "PDF encrypted")) := by
  simp [GetPlainPdf, hread, hparse, henc]

/-- Witness for C6: an encrypted one-page document with content stream "A". -/
theorem GetPlainPdf_encrypted_witness :
    GetPlainPdf (echoLib encryptedDoc) (readerOf [0x25, 0x50]) 100 =
      ([], some (.Errorf "PDF encrypted")) :=
  GetPlainPdf_encrypted (echoLib encryptedDoc) (readerOf [0x25, 0x50]) 100 [0x25, 0x50]
    encryptedDoc rfl rfl rfl

/-- C4 at the failing input: for the two-page document with content streams "A" and "B",
`GetPlainPdf` returns what the library extracts from "A" alone, for every extraction
function; with the extraction that echoes the stream the result is "A", while the text of
all pages is "AB". -/
theorem GetPlainPdf_first_page_only :
    (∀ (extract : GoString → GoString × Option GoError) (bytes : List Byte) (size : Int),
      GetPlainPdf ⟨fun _ => .ok twoPageDoc, extract⟩ (readerOf bytes) size = extract [0x41]) ∧
    GetPlainPdf (echoLib twoPageDoc) (readerOf [0x25, 0x50]) 100 = ([0x41], none) ∧
    textOfAllPages (echoLib twoPageDoc) twoPageDoc 2 = [0x41, 0x42] := by
  refine ⟨fun extract bytes size => rfl, rfl, rfl⟩

/-- C5, as stated, fails: there is no reading of "rejected for its size" under which
content longer than the limit is always rejected and content of exactly the limit never
is. For the one-byte content "%" the result under the limit 0 is the result under the
limit 1, for every library; with the echoing library both are the text "A" without an
error. -/
theorem GetPlainPdf_size_not_checked :
    (¬ ∃ rejectedForSize : GoString × Option GoError → Prop,
      ∀ (lib : PdfLib) (blobBuffer : Reader) (size : Int),
        ((blobBuffer.stream.length : Int) > size →
          rejectedForSize (GetPlainPdf lib blobBuffer size)) ∧
        ((blobBuffer.stream.length : Int) = size →
          ¬ rejectedForSize (GetPlainPdf lib blobBuffer size))) ∧
    GetPlainPdf (echoLib twoPageDoc) (readerOf [0x25]) 0 = ([0x41], none) := by
  refine ⟨?_, rfl⟩
  rintro ⟨P, hP⟩
  have h0 := (hP (echoLib twoPageDoc) (readerOf [0x25]) 0).1 (by decide)
  have h1 := (hP (echoLib twoPageDoc) (readerOf [0x25]) 1).2 (by decide)
  exact h1 h0

/-- C5, amended: `GetPlainPdf` does not read its size argument; the result, error included,
is the same for every size limit, so content longer than the limit is read, parsed and
extracted like content within the limit, and no content is rejected for its size. In
particular the content is handed to the parser whatever the limit: an error of the parser
is the error returned. -/
theorem GetPlainPdf_ignores_size (lib : PdfLib) (blobBuffer : Reader) (size size2 : Int) :
    GetPlainPdf lib blobBuffer size = GetPlainPdf lib blobBuffer size2 ∧
    ∀ (data : List Byte) (err : GoError), blobBuffer.ReadAll = .ok data →
      lib.NewPdfReader data = .error err → GetPlainPdf lib blobBuffer size = ([], some err) := by
  refine ⟨rfl, fun data err hread hparse => ?_⟩
  simp [GetPlainPdf, hread, hparse]


/-! ### `findRepos` -/

theorem any_congr_mem {α : Type} (l : List α) (f g : α → Bool) (h : ∀ x ∈ l, f x = g x) :
    l.any f = l.any g := by
  induction l with
  | nil => rfl
  | cons a as ih =>
    rw [List.any_cons, List.any_cons, h a (List.mem_cons_self a as),
      ih (fun x hx => h x (List.mem_cons_of_mem a hx))]

theorem hasRepoAncestor_snoc (st : Store) (rpath rel : Path) (x : GoString) :
    hasRepoAncestor st rpath (rel ++ [x]) =
      (hasRepoAncestor st rpath rel || isRepoRoot st (rpath ++ rel)) := by
  unfold hasRepoAncestor
  rw [List.length_append, List.length_singleton, List.range_succ, List.any_append]
  congr 1
  · apply any_congr_mem
    intro k hk
    rw [List.take_append_of_le_length (le_of_lt (List.mem_range.mp hk))]
  · simp

theorem hasRepoAncestor_below (st : Store) (rpath rel : Path) (x : GoString) (t : Path)
    (h : isRepoRoot st (rpath ++ rel) = true) :
    hasRepoAncestor st rpath (rel ++ x :: t) = true := by
  unfold hasRepoAncestor
  rw [List.any_eq_true]
  refine ⟨rel.length, ?_, ?_⟩
  · rw [List.mem_range, List.length_append, List.length_cons]
    omega
  · rw [List.take_left]
    exact h

mutual
theorem treeNodes_below (rel : Path) : ∀ (node : FsNode) (n : Path × Bool),
    n ∈ treeNodes rel node → ∃ t, n.1 = rel ++ t
  | .file, n, h => by
    rw [treeNodes, List.mem_singleton] at h
    exact ⟨[], by rw [h, List.append_nil]⟩
  | .dir entries, n, h => by
    rw [treeNodes, List.mem_cons] at h
    rcases h with h | h
    · exact ⟨[], by rw [h, List.append_nil]⟩
    · obtain ⟨x, t, ht⟩ := entriesNodes_below rel entries n h
      exact ⟨x :: t, ht⟩
theorem entriesNodes_below (rel : Path) : ∀ (es : FsEntries) (n : Path × Bool),
    n ∈ entriesNodes rel es → ∃ x t, n.1 = rel ++ x :: t
  | .nil, n, h => by
    rw [entriesNodes] at h
    exact absurd h (List.not_mem_nil n)
  | .cons name node rest, n, h => by
    rw [entriesNodes, List.mem_append] at h
    rcases h with h | h
    · obtain ⟨t, ht⟩ := treeNodes_below (rel ++ [name]) node n h
      exact ⟨name, t, by rw [ht, List.append_assoc, List.singleton_append]⟩
    · exact entriesNodes_below rel rest n h
end

/-- Below a repository root no node is reported. -/
theorem filterMap_reportedRepo_below (st : Store) (rbd : ReIndexRequest) (rpath rel : Path)
    (es : FsEntries) (h : isRepoRoot st (rpath ++ rel) = true) :
    (entriesNodes rel es).filterMap (reportedRepo st rbd rpath) = [] := by
  rw [List.filterMap_eq_nil_iff]
  intro n hn
  obtain ⟨x, t, ht⟩ := entriesNodes_below rel es n hn
  simp [reportedRepo, ht, hasRepoAncestor_below st rpath rel x t h]

/-- Below a repository root no node is among the expected visits. -/
theorem filter_visited_below (st : Store) (rpath rel : Path) (es : FsEntries)
    (h : isRepoRoot st (rpath ++ rel) = true) :
    (entriesNodes rel es).filter (fun n => !hasRepoAncestor st rpath n.1) = [] := by
  rw [List.filter_eq_nil_iff]
  intro n hn
  obtain ⟨x, t, ht⟩ := entriesNodes_below rel es n hn
  simp [ht, hasRepoAncestor_below st rpath rel x t h]

mutual
theorem walk_spec (st : Store) (rbd : ReIndexRequest) (rpath : Path) :
    ∀ (node : FsNode) (rel : Path) (s : WalkState), hasRepoAncestor st rpath rel = false →
      walk st rbd (rpath ++ rel) node s =
        (⟨s.repos ++ (treeNodes rel node).filterMap (reportedRepo st rbd rpath),
          s.visited ++ ((treeNodes rel node).filter
            (fun n => !hasRepoAncestor st rpath n.1)).map (fun n => rpath ++ n.1)⟩,
          if node.IsDir && isRepoRoot st (rpath ++ rel) then some .SkipDir else none)
  | .file, rel, s, hanc => by
    simp [walk, walkFn, treeNodes, reportedRepo, FsNode.IsDir, hanc]
  | .dir entries, rel, s, hanc => by
    cases hopen : st.OpenRepository (rpath ++ rel) with
    | none =>
      have hroot : isRepoRoot st (rpath ++ rel) = false := by simp [isRepoRoot, hopen]
      rw [walk]
      simp only [walkFn, hopen, Bool.not_true, Bool.false_eq_true, if_false]
      rw [walkEntries_spec st rbd rpath entries rel _ hanc hroot]
      simp [treeNodes, reportedRepo, FsNode.IsDir, hanc, hopen, hroot]
    | some repo =>
      have hroot : isRepoRoot st (rpath ++ rel) = true := by simp [isRepoRoot, hopen]
      rw [walk]
      simp only [walkFn, hopen, Bool.not_true, Bool.false_eq_true, if_false]
      cases hacc : hasRepoAccess st repo rbd with
      | error e =>
        simp [treeNodes, reportedRepo, FsNode.IsDir, hanc, hopen, hroot, hacc,
          filterMap_reportedRepo_below st rbd rpath rel entries hroot,
          filter_visited_below st rpath rel entries hroot]
      | ok g =>
        simp [treeNodes, reportedRepo, FsNode.IsDir, hanc, hopen, hroot, hacc,
          filterMap_reportedRepo_below st rbd rpath rel entries hroot,
          filter_visited_below st rpath rel entries hroot]
theorem walkEntries_spec (st : Store) (rbd : ReIndexRequest) (rpath : Path) :
    ∀ (es : FsEntries) (rel : Path) (s : WalkState), hasRepoAncestor st rpath rel = false →
      isRepoRoot st (rpath ++ rel) = false →
      walkEntries st rbd (rpath ++ rel) es s =
        (⟨s.repos ++ (entriesNodes rel es).filterMap (reportedRepo st rbd rpath),
          s.visited ++ ((entriesNodes rel es).filter
            (fun n => !hasRepoAncestor st rpath n.1)).map (fun n => rpath ++ n.1)⟩, none)
  | .nil, rel, s, _, _ => by
    simp [walkEntries, entriesNodes]
  | .cons name node rest, rel, s, hanc, hroot => by
    have hchild : hasRepoAncestor st rpath (rel ++ [name]) = false := by
      rw [hasRepoAncestor_snoc, hanc, hroot]
      rfl
    rw [walkEntries, List.append_assoc, walk_spec st rbd rpath node (rel ++ [name]) s hchild]
    by_cases hskip : (node.IsDir && isRepoRoot st (rpath ++ (rel ++ [name]))) = true
    · have hboth := Bool.and_eq_true_iff.mp hskip
      simp only [hskip, if_true, hboth.1, Bool.not_true, Bool.false_or, ne_eq, not_true_eq_false,
        decide_False, Bool.false_eq_true, if_false]
      rw [walkEntries_spec st rbd rpath rest rel _ hanc hroot]
      simp [entriesNodes, List.append_assoc, hboth.2]
    · simp only [hskip, Bool.false_eq_true, if_false]
      rw [walkEntries_spec st rbd rpath rest rel _ hanc hroot]
      simp [entriesNodes, List.append_assoc]
end

/-- C3: on a finite directory tree `findRepos` returns, in depth-first order, exactly the
repository roots without a repository root among their proper ancestors (from the start
path downwards) whose access check succeeds, and no error; the walk reaches exactly the
nodes without a repository root among their proper ancestors, so it never descends into
a repository root, with or without access, and always descends into other directories. -/
theorem findRepos_spec (st : Store) (rbd : ReIndexRequest) (rpath : Path) (root : FsNode) :
    findRepos st rbd rpath root = (expectedRepos st rbd rpath root, none) ∧
    findReposVisited st rbd rpath root = expectedVisited st rpath root := by
  have h := walk_spec st rbd rpath root [] ⟨[], []⟩ (by simp [hasRepoAncestor])
  rw [List.append_nil] at h
  constructor
  · unfold findRepos Walk
    rw [h]
    by_cases hskip : (root.IsDir && isRepoRoot st (rpath ++ [])) = true
    · simp [hskip, expectedRepos]
    · simp [hskip, expectedRepos]
  · unfold findReposVisited Walk
    rw [h]
    simp [expectedVisited]


/-! ### `loadconfig` -/

theorem decimalValueFrom_cons (v : Nat) (c : Byte) (cs : List Byte) :
    decimalValueFrom v (c :: cs) = decimalValueFrom (10 * v + (c.val - 0x30)) cs := rfl

theorem le_decimalValueFrom (ds : List Byte) : ∀ v, v ≤ decimalValueFrom v ds := by
  induction ds with
  | nil => intro v; exact le_refl v
  | cons c cs ih =>
    intro v
    rw [decimalValueFrom_cons]
    exact le_trans (by omega) (ih _)

/-- The loop of `ParseUint` in base 10: either all bytes are digits, the number fits and
is returned, or the loop ends with one of the two errors. -/
theorem parseUintLoop_cases (M : Nat) (hM : M < 2 ^ 64) : ∀ (ds : List Byte) (n : Nat), n ≤ M →
    (ds.all isDecimalDigit = true ∧ decimalValueFrom n ds ≤ M ∧
      parseUintLoop 10 M ds n = (decimalValueFrom n ds, none)) ∨
    ((ds.all isDecimalDigit = false ∨ M < decimalValueFrom n ds) ∧
      (parseUintLoop 10 M ds n = (0, some .ErrSyntax) ∨
        parseUintLoop 10 M ds n = (M, some .ErrRange))) := by
  intro ds
  induction ds with
  | nil =>
    intro n hn
    exact Or.inl ⟨rfl, hn, rfl⟩
  | cons c cs ih =>
    intro n hn
    norm_num at hM
    by_cases hc : 0x30 ≤ c.val ∧ c.val ≤ 0x39
    · have hd : isDecimalDigit c = true := by simp [isDecimalDigit, hc]
      have hlt : ¬ (c.val - 0x30 ≥ 10) := by omega
      rw [parseUintLoop]
      simp only [hc, and_self, if_true, hlt, if_false, List.all_cons, hd, Bool.true_and,
        decimalValueFrom_cons]
      by_cases h1 : n ≥ (2 ^ 64 - 1) / 10 + 1
      · rw [if_pos h1]
        refine Or.inr ⟨Or.inr ?_, Or.inr rfl⟩
        have := le_decimalValueFrom cs (10 * n + (c.val - 0x30))
        norm_num at h1
        omega
      · rw [if_neg h1]
        norm_num at h1
        have e0 : n * 10 % 2 ^ 64 = 10 * n := by
          norm_num
          omega
        rw [e0]
        by_cases h2 : (10 * n + (c.val - 0x30)) % 2 ^ 64 < 10 * n ∨
            (10 * n + (c.val - 0x30)) % 2 ^ 64 > M
        · rw [if_pos h2]
          refine Or.inr ⟨Or.inr ?_, Or.inr rfl⟩
          have := le_decimalValueFrom cs (10 * n + (c.val - 0x30))
          norm_num at h2
          omega
        · rw [if_neg h2]
          norm_num at h2
          have e1 : (10 * n + (c.val - 0x30)) % 2 ^ 64 = 10 * n + (c.val - 0x30) := by
            norm_num
            omega
          rw [e1]
          exact ih _ (by omega)
    · have hd : isDecimalDigit c = false := by simp [isDecimalDigit, hc]
      refine Or.inr ⟨Or.inl (by simp [hd]), Or.inl ?_⟩
      rw [parseUintLoop]
      simp only [hc, if_false]
      by_cases hl : 0x61 ≤ c.val ||| 0x20 ∧ c.val ||| 0x20 ≤ 0x7a
      · have hge : (c.val ||| 0x20) - 0x61 + 10 ≥ 10 := by omega
        simp only [hl, and_self, if_true, hge]
      · simp only [hl, if_false]

/-- The result of `ParseUint(s, 10, bitSize)` against the number written by `s`. -/
theorem ParseUint_cases (s : GoString) (b : Nat) (hb : b ≤ 64) :
    (∃ v, decimalNat? s = some v ∧ v ≤ 2 ^ b - 1 ∧ ParseUint s 10 b = (v, none)) ∨
    ((decimalNat? s = none ∨ ∃ v, decimalNat? s = some v ∧ 2 ^ b - 1 < v) ∧
      (ParseUint s 10 b = (0, some .ErrSyntax) ∨
        ParseUint s 10 b = (2 ^ b - 1, some .ErrRange))) := by
  have hpos : 0 < 2 ^ b := Nat.two_pow_pos b
  have hle : 2 ^ b ≤ 2 ^ 64 := Nat.pow_le_pow_right (by decide) hb
  have hM : 2 ^ b - 1 < 2 ^ 64 := by omega
  have hmod : (2 ^ b - 1) % 2 ^ 64 = 2 ^ b - 1 := Nat.mod_eq_of_lt hM
  by_cases hs : s = []
  · subst hs
    exact Or.inr ⟨Or.inl (by simp [decimalNat?]), Or.inl (by simp [ParseUint])⟩
  · have hP : ParseUint s 10 b = parseUintLoop 10 (2 ^ b - 1) s 0 := by
      unfold ParseUint
      rw [if_neg hs, hmod]
    rcases parseUintLoop_cases (2 ^ b - 1) hM s 0 (Nat.zero_le _) with
      ⟨hall, hfit, hres⟩ | ⟨hbad, hres⟩
    · exact Or.inl ⟨decimalValue s, by simp [decimalNat?, hs, hall], hfit, by rw [hP, hres]; rfl⟩
    · refine Or.inr ⟨?_, by rw [hP]; exact hres⟩
      by_cases hall : s.all isDecimalDigit = true
      · rcases hbad with hbad | hbad
        · rw [hall] at hbad
          exact absurd hbad (by decide)
        · exact Or.inr ⟨decimalValue s, by simp [decimalNat?, hs, hall], hbad⟩
      · exact Or.inl (by simp [decimalNat?, hs, hall])

/-- The conversion `int64(v)` keeps a value below `2^63`. -/
theorem toInt64_of_lt (v : Nat) (h : v < 2 ^ 63) : toInt64 (v : Int) = v := by
  unfold toInt64
  norm_num at h
  norm_num
  omega

/-- Negating `int64(v)` in 64 bits gives `-v` for every `v` up to `2^63`, the case
`v = 2^63` wrapping around twice. -/
theorem toInt64_neg_toInt64 (v : Nat) (h : v ≤ 2 ^ 63) :
    toInt64 (-(toInt64 (v : Int))) = -(v : Int) := by
  unfold toInt64
  norm_num at h
  norm_num
  omega

/-- The part of `ParseInt(s, 10, 64)` after the sign is picked off, followed by the
choice between parsed value and default `d` in `loadconfig`: for digits `rest` and sign
flag `neg` the outcome is the integer written, when it fits 64 signed bits, and `d`
otherwise. -/
theorem signed_of_ParseUint (rest : GoString) (neg : Bool) (d : Int) :
    (let r := ParseUint rest 10 64
     let res : Int × Option NumError :=
      if r.2 = some .ErrSyntax then (0, some .ErrSyntax)
      else if !neg && r.1 ≥ 2 ^ (64 - 1) then (toInt64 ((2 ^ (64 - 1) - 1 : Nat) : Int), some .ErrRange)
      else if neg && r.1 > 2 ^ (64 - 1) then (toInt64 (-((2 ^ (64 - 1) : Nat) : Int)), some .ErrRange)
      else (if neg then toInt64 (-(toInt64 (r.1 : Int))) else toInt64 (r.1 : Int), none)
     if res.2 ≠ none then d else res.1) =
    (match (decimalNat? rest).map (fun v => if neg then -(v : Int) else (v : Int)) with
     | some v => if -(2 : Int) ^ 63 ≤ v ∧ v < (2 : Int) ^ 63 then v else d
     | none => d) := by
  rcases ParseUint_cases rest 64 (le_refl 64) with ⟨v, hv, hfit, hres⟩ | ⟨hbad, hres⟩
  · simp only [hres, hv, Option.map_some']
    norm_num at hfit
    cases neg with
    | true =>
      by_cases h : v > 2 ^ 63
      · norm_num at h
        have h2 : ¬ (-(2 : Int) ^ 63 ≤ -(v : Int) ∧ -(v : Int) < (2 : Int) ^ 63) := by
          norm_num
          omega
        simp [h]
        rw [if_neg (fun hc => absurd hc.1 (by omega))]
      · have h3 : v ≤ 2 ^ 63 := by omega
        have e := toInt64_neg_toInt64 v h3
        norm_num at h h3
        have h2 : (-(2 : Int) ^ 63 ≤ -(v : Int) ∧ -(v : Int) < (2 : Int) ^ 63) := by
          norm_num
          omega
        have h4 : ¬ (9223372036854775808 < v) := by omega
        simp [h4, e]
        rw [if_pos ⟨by omega, by omega⟩]
    | false =>
      by_cases h : v ≥ 2 ^ 63
      · norm_num at h
        have h2 : ¬ (-(2 : Int) ^ 63 ≤ (v : Int) ∧ (v : Int) < (2 : Int) ^ 63) := by
          norm_num
          omega
        simp [h]
        rw [if_neg (fun hc => absurd hc.2 (by omega))]
      · have h3 : v < 2 ^ 63 := by omega
        have e := toInt64_of_lt v h3
        norm_num at h h3
        have h2 : (-(2 : Int) ^ 63 ≤ (v : Int) ∧ (v : Int) < (2 : Int) ^ 63) := by
          norm_num
          omega
        have h4 : ¬ (9223372036854775808 ≤ v) := by omega
        simp [h4, e]
        rw [if_pos ⟨by omega, by omega⟩]
  · have hspec : (match (decimalNat? rest).map (fun v => if neg then -(v : Int) else (v : Int)) with
        | some v => if -(2 : Int) ^ 63 ≤ v ∧ v < (2 : Int) ^ 63 then v else d
        | none => d) = d := by
      rcases hbad with hnone | ⟨v, hv, hbig⟩
      · simp [hnone]
      · norm_num at hbig
        simp only [hv, Option.map_some']
        cases neg with
        | true =>
          have h2 : ¬ (-(2 : Int) ^ 63 ≤ -(v : Int) ∧ -(v : Int) < (2 : Int) ^ 63) := by
            norm_num
            omega
          simp
          intros
          omega
        | false =>
          have h2 : ¬ (-(2 : Int) ^ 63 ≤ (v : Int) ∧ (v : Int) < (2 : Int) ^ 63) := by
            norm_num
            omega
          simp
          intros
          omega
    rw [hspec]
    rcases hres with hres | hres
    · simp [hres]
    · cases neg <;> simp [hres]

/-- The value `loadconfig` keeps for a signed setting is the one C9 describes. -/
theorem signed_config (s : GoString) (d : Int) :
    (if (ParseInt s 10 64).2 ≠ none then d else (ParseInt s 10 64).1) = signedSetting s d := by
  cases s with
  | nil => simp [ParseInt, signedSetting, decimalInt?]
  | cons c cs =>
    have key := signed_of_ParseUint (if c.val = 0x2b ∨ c.val = 0x2d then cs else c :: cs)
      (decide (c.val = 0x2d)) d
    refine Eq.trans (by rfl) (key.trans ?_)
    unfold signedSetting decimalInt?
    by_cases hm : c.val = 0x2d
    · simp only [hm, or_true, if_true, decide_True]
    · by_cases hp : c.val = 0x2b
      · simp only [hm, hp, true_or, if_true, decide_False, if_false]
        cases decimalNat? cs <;> rfl
      · simp only [hm, hp, or_self, if_false, decide_False]
        cases decimalNat? (c :: cs) <;> rfl

/-- The value `loadconfig` keeps for the port is the one C9 describes. -/
theorem port_config (s : GoString) :
    (if (ParseUint s 10 16).2 ≠ none then 8099 else (ParseUint s 10 16).1) % 2 ^ 16 =
      portSetting s := by
  unfold portSetting
  rcases ParseUint_cases s 16 (by decide) with ⟨v, hv, hfit, hres⟩ | ⟨hbad, hres⟩
  · norm_num at hfit
    simp only [hres, hv, ne_eq, not_true_eq_false, if_false]
    rw [if_pos hfit]
    norm_num
    omega
  · have hspec : (match decimalNat? s with
        | some v => if v ≤ 65535 then v else 8099
        | none => 8099) = 8099 := by
      rcases hbad with hnone | ⟨v, hv, hbig⟩
      · simp [hnone]
      · norm_num at hbig
        simp only [hv]
        rw [if_neg (by omega)]
    rw [hspec]
    rcases hres with hres | hres <;> simp [hres]

/-- C9: `loadconfig` does not fail on any value of `text_max`, `pdf_max`, `timeout` or
`port`: unless the search server cannot be initialised, it returns a configuration in
which `MaxTextSize`, `MaxPDFSize` and `Timeout` are the integer written by the string
when it is a base-10 integer that fits 64 signed bits and 10, 100 and 60 otherwise, and
`Port` is the number written by the string when it is a base-10 unsigned integer from 0
to 65535 and 8099 otherwise. -/
theorem loadconfig_settings {ES : Type} (env : ConfEnv) (newES : GoString → ES)
    (init : ES → Option GoError) :
    loadconfig env newES init =
      match init (newES (ReadConf env.elastic_url)) with
      | some _ => none
      | none =>
        some { Port := portSetting (ReadConfDefault env.port [0x38, 0x30, 0x39, 0x39])
               Key := ReadConf env.key
               RepositoryStore := ReadConf env.repository_store
               MaxTextSize := signedSetting (ReadConfDefault env.text_max [0x31, 0x30]) 10
               MaxPDFSize := signedSetting (ReadConfDefault env.pdf_max [0x31, 0x30, 0x30]) 100
               Timeout := signedSetting (ReadConfDefault env.timeout [0x36, 0x30]) 60
               Elasticsearch := newES (ReadConf env.elastic_url) } := by
  unfold loadconfig
  simp only [signed_config, port_config]

end GinDex
